import Mathlib

/-!
A shallow embedding of the runtime assembly and state-recovery subsystem of
the sail repository (src/runner.go), with proofs of the specification
claims about it.

Engine effects (image inspection, directory creation, binary loading,
container create and start, container inspection, IP lookup) are modelled
by passing the engine's responses in explicitly; each Go function of
src/runner.go becomes a Lean function of those responses.  Go maps are
embedded as association lists in the (unspecified) iteration order the
engine reports, with pairwise-distinct keys.  Go string helpers used by the
code (strings.Split, strings.HasPrefix, filepath.Join, filepath.Abs) are
modelled over character lists so that everything evaluates inside the
kernel.
-/

namespace Sail

/-- Models Go strings.HasPrefix: sails over the character lists. -/
def goStartsWith (s pre : String) : Bool :=
  List.isPrefixOf pre.toList s.toList

/-- Models Go strings.Split with a one-character separator, on character
lists: splitting the empty list yields one empty group, and each separator
character opens a new group. -/
def splitChars (sep : Char) : List Char → List (List Char)
  | [] => [[]]
  | c :: rest =>
    match splitChars sep rest with
    | [] => [[]]
    | g :: gs => if c = sep then [] :: g :: gs else (c :: g) :: gs

/-- Models Go strings.Split(s, sep) for a one-character separator. -/
def goSplit (s : String) (sep : Char) : List String :=
  (splitChars sep s.toList).map (fun cs => String.mk cs)

/-- Modelled from the spec: the reserved label-namespace key used for sail
control metadata (the constant sailLabel is declared outside the packaged
sources; section 3 of the design calls the reserved namespace sail.*). -/
def sailLabel : String := "sail"

-- Docker labels for sail state (src/runner.go lines 22-28).
def baseImageLabel : String := sailLabel ++ ".base_image"
def hatLabel : String := sailLabel ++ ".hat"
def projectLocalDirLabel : String := sailLabel ++ ".project_local_dir"
def projectDirLabel : String := sailLabel ++ ".project_dir"
def projectNameLabel : String := sailLabel ++ ".project_name"

/-- Modelled from the spec: the fixed, statically known in-container home
directory (guestHomeDir is declared outside the packaged sources;
section 4.1 of the design). -/
def guestHomeDir : String := "/home/user"

/-- Modelled from the spec: the fixed in-container log file path
(containerLogPath is declared outside the packaged sources; section 6). -/
def containerLogPath : String := "/tmp/code-server.log"

/-- Modelled from the spec: the process-wide root of per-container host
metadata directories (metaRoot is declared outside the packaged sources;
section 6). -/
def metaRoot : String := "/root/.local/share/sail"

/-- Models Go filepath.Join on two already-clean components: they are joined
with a single path separator (Join additionally cleans the result, which no
claim depends on). -/
def filepathJoin (a b : String) : String :=
  if a = "" then b
  else if b = "" then a
  else if a.toList.getLast? = some (Char.ofNat 47) then a ++ b
  else a ++ "/" ++ b

/-- Modelled from the spec: the Path Resolver substitutes a leading
home-directory placeholder with the given home directory (resolvePath is
declared outside the packaged sources; section 4.1 of the design). -/
def resolvePath (homedir p : String) : String :=
  if p = "~" then homedir
  else if goStartsWith p "~/" then homedir ++ String.mk (p.toList.drop 1)
  else p

/-- Models Go filepath.Abs: an absolute path is kept, a relative one is
joined to the working directory (Abs additionally cleans the result, which
no claim depends on). -/
def filepathAbs (cwd p : String) : String :=
  if goStartsWith p "/" then p else filepathJoin cwd p

/-- A bind mount: the github.com/docker/docker mount.Mount restricted to the
fields src/runner.go sets (Type, Source, Target); mtype embeds the Go field
Type. -/
structure Mount where
  mtype : String
  source : String
  target : String
deriving DecidableEq, Repr

/-- The loop of runner.stripDuplicateMounts (src/runner.go lines 249-255):
dests collects the targets already seen and only the first mount per target
is kept, in order. -/
def stripLoop : List Mount → List String → List Mount
  | [], _ => []
  | mnt :: rest, dests =>
    if mnt.target ∈ dests then stripLoop rest dests
    else mnt :: stripLoop rest (mnt.target :: dests)

/-- runner.stripDuplicateMounts (src/runner.go lines 244-257); the receiver
is unused in the Go code. -/
def stripDuplicateMounts (mounts : List Mount) : List Mount :=
  stripLoop mounts []

/-- runner (src/runner.go lines 34-50). -/
structure runner where
  cntName : String
  projectName : String
  hostname : String
  projectLocalDir : String
  hostUser : String
  network : String
  ip : String
  testCmd : String
deriving DecidableEq, Repr

/-- The parts of a Docker image inspection result that src/runner.go reads:
ins.ContainerConfig.Labels (share declarations and propagated labels, lines
203 and 233) and img.Config.Labels (the project_root lookup, line 288). -/
structure Image where
  containerConfigLabels : List (String × String)
  configLabels : List (String × String)
deriving DecidableEq, Repr

/-- The distinct failure shapes of src/runner.go, one constructor per error
return site, each carrying the identifiers interpolated into the message
there. -/
inductive SailErr where
  | mkdirFailed : SailErr
  | loadCodeServerFailed : SailErr
  | inspectImageFailed : SailErr
  | inspectNamedFailed : String → SailErr
  | invalidShare : String → SailErr
  | assembleMountsFailed : SailErr → SailErr
  | addLabelsFailed : SailErr → SailErr
  | createFailed : String → SailErr
  | startFailed : String → SailErr
  | inspectContainerFailed : String → SailErr
  | ipLookupFailed : String → SailErr
deriving DecidableEq, Repr

/-- A Go map read m[k], as first-match lookup in the association list. -/
def mapLookup (m : List (String × String)) (k : String) : Option String :=
  (m.find? (fun p => p.1 == k)).map (fun p => p.2)

/-- A Go map read m[k] that yields the zero value for a missing key. -/
def mapLookupD (m : List (String × String)) (k : String) : String :=
  (mapLookup m k).getD ""

/-- A Go map write m[k] = v: overwrite the existing entry, else append. -/
def mapInsert (m : List (String × String)) (k v : String) : List (String × String) :=
  if m.any (fun p => p.1 == k) then
    m.map (fun p => if p.1 == k then (k, v) else p)
  else m ++ [(k, v)]

/-- runner.projectDir (src/runner.go lines 279-294); the engine's reply to
the image inspection is passed in, none modelling an inspection failure. -/
def runner.projectDir (r : runner) (img : Option Image) : Except SailErr String :=
  match img with
  | none => Except.error SailErr.inspectImageFailed
  | some i =>
    match mapLookup i.configLabels "project_root" with
    | some proot => Except.ok (filepathJoin proot r.projectName)
    | none => Except.ok (filepathJoin guestHomeDir r.projectName)

/-- The loop of runner.imageDefinedMounts (src/runner.go lines 203-219),
iterating the image labels in the engine-reported order: share-prefixed
values must split on the colon into exactly two tokens, which become the
source and target of a bind mount. -/
def imageDefinedMountsLoop : List (String × String) → List Mount → Except SailErr (List Mount)
  | [], mounts => Except.ok mounts
  | (k, v) :: rest, mounts =>
    if goStartsWith k "share." then
      match goSplit v ':' with
      | [s, t] => imageDefinedMountsLoop rest (mounts ++ [⟨"bind", s, t⟩])
      | _ => Except.error (SailErr.invalidShare v)
    else imageDefinedMountsLoop rest mounts

/-- runner.imageDefinedMounts (src/runner.go lines 194-221); the receiver is
unused beyond the engine client. -/
def imageDefinedMounts (img : Option Image) (image : String) (mounts : List Mount) :
    Except SailErr (List Mount) :=
  match img with
  | none => Except.error (SailErr.inspectNamedFailed image)
  | some i => imageDefinedMountsLoop i.containerConfigLabels mounts

/-- The loop of runner.addImageDefinedLabels (src/runner.go lines 233-239):
every image label in the reserved namespace is written into the container
label map. -/
def addLabelsLoop : List (String × String) → List (String × String) → List (String × String)
  | [], labels => labels
  | (k, v) :: rest, labels =>
    if goStartsWith k sailLabel then addLabelsLoop rest (mapInsert labels k v)
    else addLabelsLoop rest labels

/-- runner.addImageDefinedLabels (src/runner.go lines 224-242): mutates the
container label map passed to it; the embedding returns the updated map. -/
def addImageDefinedLabels (img : Option Image) (image : String)
    (labels : List (String × String)) : Except SailErr (List (String × String)) :=
  match img with
  | none => Except.error (SailErr.inspectNamedFailed image)
  | some i => Except.ok (addLabelsLoop i.containerConfigLabels labels)

/-- runner.resolveMounts (src/runner.go lines 265-277): every source is
resolved in host context and made absolute, every target is resolved in
guest context.  The host home directory and working directory that Go reads
from the process environment are passed in. -/
def resolveMounts (hostHomeDir cwd : String) (mounts : List Mount) : List Mount :=
  mounts.map (fun m =>
    { m with
      source := filepathAbs cwd (resolvePath hostHomeDir m.source)
      target := resolvePath guestHomeDir m.target })

/-- The first fixed mount of runner.mounts (src/runner.go lines 136-140). -/
def configMount : Mount :=
  ⟨"bind", "~/.config/Code", "~/.config/Code"⟩

/-- The second fixed mount of runner.mounts (src/runner.go lines 141-145). -/
def extensionsMount : Mount :=
  ⟨"bind", "~/.vscode/extensions", "~/.vscode/extensions"⟩

/-- The per-container global-storage mount (src/runner.go lines 147-159). -/
def globalStorageMount (cntName : String) : Mount :=
  ⟨"bind", filepathJoin (filepathJoin metaRoot cntName) "globalStorage",
    "~/.local/share/code-server/globalStorage/"⟩

/-- The project directory mount (src/runner.go lines 166-170). -/
def projectMount (projectLocalDir projectDir : String) : Mount :=
  ⟨"bind", projectLocalDir, projectDir⟩

/-- The code-server binary mount (src/runner.go lines 177-181). -/
def codeServerMount (binPath : String) : Mount :=
  ⟨"bind", binPath, "/usr/bin/code-server"⟩

/-- The environment a create call runs against: the engine's reply to the
image inspection (none = inspection failure), whether creating the host
global-storage directory succeeded, the code-server binary load result
(none = load failure), the host home and working directories, and the
engine's replies to container create and start (some msg = the call failed
with that underlying error). -/
structure RunEnv where
  img : Option Image
  mkdirOk : Bool
  codeServerBinPath : Option String
  hostHomeDir : String
  cwd : String
  createErr : Option String
  startErr : Option String
deriving DecidableEq, Repr

/-- runner.mounts (src/runner.go lines 134-191): append the fixed mounts,
the project mount and the binary mount, then the image-declared shares, and
only then resolve every mount. -/
def runner.mounts (r : runner) (env : RunEnv) (mounts0 : List Mount) (image : String) :
    Except SailErr (List Mount) :=
  let m2 := (mounts0 ++ [configMount]) ++ [extensionsMount]
  if env.mkdirOk then
    let m3 := m2 ++ [globalStorageMount r.cntName]
    match r.projectDir env.img with
    | Except.error e => Except.error e
    | Except.ok projectDir =>
      let m4 := m3 ++ [projectMount r.projectLocalDir projectDir]
      match env.codeServerBinPath with
      | none => Except.error SailErr.loadCodeServerFailed
      | some binPath =>
        let m5 := m4 ++ [codeServerMount binPath]
        match imageDefinedMounts env.img image m5 with
        | Except.error e => Except.error e
        | Except.ok m6 => Except.ok (resolveMounts env.hostHomeDir env.cwd m6)
  else Except.error SailErr.mkdirFailed

/-- The entry command built at src/runner.go lines 82-85: the code-server
invocation piped to the log file, unless a test command is set, in which
case the command is the test command followed by an unconditional exit 1. -/
def entryCmd (projectDir testCmd : String) : String :=
  if testCmd != "" then testCmd ++ "; exit 1"
  else
    "cd " ++ projectDir ++
      "; code-server --data-dir ~/.config/Code --extensions-dir ~/.vscode/extensions --allow-http --no-auth 2>&1 | tee " ++
      containerLogPath

/-- The fixed control labels set at src/runner.go lines 93-98: the presence
marker, the guest project directory, the local project directory and the
project name. -/
def fixedLabels (projectDir projectLocalDir projectName : String) :
    List (String × String) :=
  [(sailLabel, ""), (projectDirLabel, projectDir),
    (projectLocalDirLabel, projectLocalDir), (projectNameLabel, projectName)]

/-- The container.Config fields set in runContainer (src/runner.go lines
87-100). -/
structure ContainerConfig where
  hostname : String
  cmd : List String
  image : String
  labels : List (String × String)
  user : String
deriving DecidableEq, Repr

/-- The container.HostConfig fields set in runContainer (src/runner.go lines
107-110). -/
structure HostConfig where
  mounts : List Mount
  privileged : Bool
deriving DecidableEq, Repr

/-- One call issued to the engine: create carries the container config, host
config, network name, IP and container name (lines 112-121), start carries
the container name (line 126).  ContainerRemove exists in the engine API but
src/runner.go never issues it; the constructor is present so its absence is
expressible. -/
inductive EngineCall where
  | create : ContainerConfig → HostConfig → String → String → String → EngineCall
  | start : String → EngineCall
  | removeContainer : String → EngineCall
deriving DecidableEq, Repr

/-- runner.runContainer (src/runner.go lines 57-132): assemble the mounts,
compute the project directory, build the entry command and the label map,
then issue create and start.  The embedding returns the engine calls issued,
in order, together with the overall result. -/
def runner.runContainer (r : runner) (env : RunEnv) (image : String) :
    List EngineCall × Except SailErr Unit :=
  match r.mounts env [] image with
  | Except.error e => ([], Except.error (SailErr.assembleMountsFailed e))
  | Except.ok mounts =>
    match r.projectDir env.img with
    | Except.error e => ([], Except.error e)
    | Except.ok projectDir =>
      let cmd := entryCmd projectDir r.testCmd
      let labels0 := fixedLabels projectDir r.projectLocalDir r.projectName
      match addImageDefinedLabels env.img image labels0 with
      | Except.error e => ([], Except.error (SailErr.addLabelsFailed e))
      | Except.ok labels =>
        let cfg : ContainerConfig :=
          { hostname := r.hostname, cmd := ["bash", "-c", cmd], image := image,
            labels := labels, user := r.hostUser ++ ":user" }
        let host : HostConfig := { mounts := mounts, privileged := true }
        let createCall := EngineCall.create cfg host r.network r.ip r.cntName
        match env.createErr with
        | some msg => ([createCall], Except.error (SailErr.createFailed msg))
        | none =>
          match env.startErr with
          | some msg =>
            ([createCall, EngineCall.start r.cntName],
              Except.error (SailErr.startFailed msg))
          | none => ([createCall, EngineCall.start r.cntName], Except.ok ())

/-- The container inspection fields runnerFromContainer reads
(cnt.Config.Hostname, cnt.Config.Labels, cnt.Config.User). -/
structure ContainerInfo where
  hostname : String
  labels : List (String × String)
  user : String
deriving DecidableEq, Repr

/-- runnerFromContainer (src/runner.go lines 298-322): the engine's replies
to the container inspection and to the live IP lookup are passed in, none
modelling the corresponding failure. -/
def runnerFromContainer (inspectRes : Option ContainerInfo)
    (containerIP : Option String) (name network : String) : Except SailErr runner :=
  match inspectRes with
  | none => Except.error (SailErr.inspectContainerFailed name)
  | some cnt =>
    match containerIP with
    | none => Except.error (SailErr.ipLookupFailed name)
    | some ip =>
      Except.ok
        { cntName := name, hostname := cnt.hostname,
          projectLocalDir := mapLookupD cnt.labels projectLocalDirLabel,
          projectName := mapLookupD cnt.labels projectNameLabel,
          hostUser := cnt.user, network := network, ip := ip, testCmd := "" }

/-- Specification-side description of what one image label contributes to
the mount list: a share-prefixed label whose value splits on the colon into
exactly two tokens contributes the bind mount from the first token to the
second, and every other label contributes nothing. -/
def shareOf (p : String × String) : Option Mount :=
  if goStartsWith p.1 "share." then
    match goSplit p.2 ':' with
    | [s, t] => some ⟨"bind", s, t⟩
    | _ => none
  else none

/-- Specification-side description of the container.Config that a
successful create call submits, given the inspected image and the computed
guest project directory. -/
def assembledConfig (r : runner) (image : String) (i : Image) (pd : String) :
    ContainerConfig :=
  { hostname := r.hostname, cmd := ["bash", "-c", entryCmd pd r.testCmd],
    image := image,
    labels := addLabelsLoop i.containerConfigLabels
      (fixedLabels pd r.projectLocalDir r.projectName),
    user := r.hostUser ++ ":user" }

/-- Specification-side description of the mount list that a successful
create call submits: the five built-in mounts followed by the image-declared
shares, all resolved. -/
def assembledMounts (r : runner) (env : RunEnv) (i : Image) (pd binPath : String) :
    List Mount :=
  resolveMounts env.hostHomeDir env.cwd
    ([configMount, extensionsMount, globalStorageMount r.cntName,
      projectMount r.projectLocalDir pd, codeServerMount binPath]
      ++ i.containerConfigLabels.filterMap shareOf)

/-- A concrete runner used to evaluate the create path. -/
def cRunner : runner :=
  { cntName := "proj", projectName := "proj", hostname := "proj",
    projectLocalDir := "/home/u/proj", hostUser := "1000", network := "sail",
    ip := "172.18.0.2", testCmd := "" }

/-- A concrete image whose single share declaration collides with the
target of the built-in code-server binary mount. -/
def cImage : Image :=
  { containerConfigLabels := [("share.cache", "/hostshare:/usr/bin/code-server")],
    configLabels := [] }

/-- A concrete environment in which every engine call succeeds. -/
def cEnv : RunEnv :=
  { img := some cImage, mkdirOk := true,
    codeServerBinPath := some "/cache/code-server", hostHomeDir := "/home/u",
    cwd := "/home/u", createErr := none, startErr := none }

/-- The mount list cRunner.mounts assembles against cEnv. -/
def cDupMounts : List Mount :=
  [⟨"bind", "/home/u/.config/Code", "/home/user/.config/Code"⟩,
    ⟨"bind", "/home/u/.vscode/extensions", "/home/user/.vscode/extensions"⟩,
    ⟨"bind", "/root/.local/share/sail/proj/globalStorage",
      "/home/user/.local/share/code-server/globalStorage/"⟩,
    ⟨"bind", "/home/u/proj", "/home/user/proj"⟩,
    ⟨"bind", "/cache/code-server", "/usr/bin/code-server"⟩,
    ⟨"bind", "/hostshare", "/usr/bin/code-server"⟩]

/-- The mount lists of the create calls in an engine trace. -/
def createdMounts (calls : List EngineCall) : List (List Mount) :=
  calls.filterMap (fun c =>
    match c with
    | EngineCall.create _ host _ _ _ => some host.mounts
    | _ => none)

theorem stripLoop_sublist (ms : List Mount) (dests : List String) :
    List.Sublist (stripLoop ms dests) ms := by
  induction ms generalizing dests with
  | nil => exact List.Sublist.refl _
  | cons m rest ih =>
    rw [stripLoop]
    by_cases h : m.target ∈ dests
    · rw [if_pos h]
      exact (ih dests).cons m
    · rw [if_neg h]
      exact (ih (m.target :: dests)).cons₂ m

theorem stripLoop_not_seen (ms : List Mount) (dests : List String) :
    ∀ m ∈ stripLoop ms dests, m.target ∉ dests := by
  induction ms generalizing dests with
  | nil =>
    intro m hm
    simp [stripLoop] at hm
  | cons m0 rest ih =>
    intro m hm
    rw [stripLoop] at hm
    by_cases h : m0.target ∈ dests
    · rw [if_pos h] at hm
      exact ih dests m hm
    · rw [if_neg h] at hm
      rcases List.mem_cons.mp hm with rfl | hmem
      · exact h
      · intro hd
        exact ih (m0.target :: dests) m hmem (List.mem_cons_of_mem _ hd)

theorem stripLoop_nodup (ms : List Mount) (dests : List String) :
    ((stripLoop ms dests).map Mount.target).Nodup := by
  induction ms generalizing dests with
  | nil => simp [stripLoop]
  | cons m0 rest ih =>
    rw [stripLoop]
    by_cases h : m0.target ∈ dests
    · rw [if_pos h]
      exact ih dests
    · rw [if_neg h]
      simp only [List.map_cons, List.nodup_cons]
      refine ⟨?_, ih (m0.target :: dests)⟩
      intro hmem
      obtain ⟨m, hm, ht⟩ := List.mem_map.mp hmem
      refine stripLoop_not_seen rest (m0.target :: dests) m hm ?_
      rw [ht]
      exact List.mem_cons_self _ _

theorem stripLoop_first_occurrence (ms : List Mount) (dests : List String) :
    ∀ m ∈ stripLoop ms dests,
      m.target ∉ dests ∧ ms.find? (fun n => n.target == m.target) = some m := by
  induction ms generalizing dests with
  | nil =>
    intro m hm
    simp [stripLoop] at hm
  | cons m0 rest ih =>
    intro m hm
    rw [stripLoop] at hm
    by_cases h : m0.target ∈ dests
    · rw [if_pos h] at hm
      obtain ⟨hnot, hfind⟩ := ih dests m hm
      refine ⟨hnot, ?_⟩
      have hb : (m0.target == m.target) = false := by
        rw [beq_eq_false_iff_ne]
        intro he
        exact hnot (he ▸ h)
      rw [List.find?_cons_of_neg _ (by simp [hb]), hfind]
    · rw [if_neg h] at hm
      rcases List.mem_cons.mp hm with rfl | hmem
      · exact ⟨h, List.find?_cons_of_pos _ (by simp)⟩
      · obtain ⟨hnot, hfind⟩ := ih (m0.target :: dests) m hmem
        have hne : m0.target ≠ m.target := by
          intro he
          refine hnot ?_
          rw [← he]
          exact List.mem_cons_self _ _
        refine ⟨fun hd => hnot (List.mem_cons_of_mem _ hd), ?_⟩
        rw [List.find?_cons_of_neg _ (by simp [hne]), hfind]

theorem stripLoop_covers (ms : List Mount) (dests : List String) :
    ∀ m ∈ ms, m.target ∈ dests ∨
      ∃ m2 ∈ stripLoop ms dests, m2.target = m.target := by
  induction ms generalizing dests with
  | nil =>
    intro m hm
    cases hm
  | cons m0 rest ih =>
    intro m hm
    rw [stripLoop]
    rcases List.mem_cons.mp hm with rfl | hmr
    · by_cases h : m.target ∈ dests
      · exact Or.inl h
      · rw [if_neg h]
        exact Or.inr ⟨m, List.mem_cons_self _ _, rfl⟩
    · by_cases h : m0.target ∈ dests
      · rw [if_pos h]
        exact ih dests m hmr
      · rw [if_neg h]
        rcases ih (m0.target :: dests) m hmr with hin | ⟨m2, hm2, ht⟩
        · rcases List.mem_cons.mp hin with he | hd
          · exact Or.inr ⟨m0, List.mem_cons_self _ _, he.symm⟩
          · exact Or.inl hd
        · exact Or.inr ⟨m2, List.mem_cons_of_mem _ hm2, ht⟩

/-- Claim C8: for every mount list, stripDuplicateMounts returns the mounts
whose target has not been seen earlier in the list — a sublist (so in the
original relative order) in which every kept mount is the first occurrence
of its target, every target of the input is still represented, and no two
mounts share a target. -/
theorem C8_stripDuplicateMounts_first_occurrence (ms : List Mount) :
    List.Sublist (stripDuplicateMounts ms) ms ∧
    ((stripDuplicateMounts ms).map Mount.target).Nodup ∧
    (∀ m ∈ stripDuplicateMounts ms,
      ms.find? (fun n => n.target == m.target) = some m) ∧
    (∀ m ∈ ms, ∃ m2 ∈ stripDuplicateMounts ms, m2.target = m.target) := by
  refine ⟨stripLoop_sublist ms [], stripLoop_nodup ms [], ?_, ?_⟩
  · intro m hm
    exact (stripLoop_first_occurrence ms [] m hm).2
  · intro m hm
    rcases stripLoop_covers ms [] m hm with hin | hex
    · cases hin
    · exact hex

/-- Witness for claim C8 at a concrete list with a duplicated target. -/
theorem C8_stripDuplicateMounts_first_occurrence_witness :
    [Mount.mk "bind" "/s1" "/t", Mount.mk "bind" "/s2" "/t"].find?
        (fun n => n.target == (Mount.mk "bind" "/s1" "/t").target) =
      some (Mount.mk "bind" "/s1" "/t") :=
  (C8_stripDuplicateMounts_first_occurrence
      [Mount.mk "bind" "/s1" "/t", Mount.mk "bind" "/s2" "/t"]).2.2.1
    (Mount.mk "bind" "/s1" "/t") (by decide)

theorem imageDefinedMountsLoop_ok (L : List (String × String)) :
    ∀ mounts : List Mount,
      (∀ p ∈ L, goStartsWith p.1 "share." = true → (goSplit p.2 ':').length = 2) →
      imageDefinedMountsLoop L mounts = Except.ok (mounts ++ L.filterMap shareOf) := by
  induction L with
  | nil =>
    intro mounts _
    simp [imageDefinedMountsLoop]
  | cons p rest ih =>
    intro mounts h
    obtain ⟨k, v⟩ := p
    simp only [imageDefinedMountsLoop]
    by_cases hk : goStartsWith k "share." = true
    · rw [if_pos hk]
      have hv := h (k, v) (List.mem_cons_self _ _) hk
      obtain ⟨s, t, hst⟩ := List.length_eq_two.mp hv
      rw [hst]
      show imageDefinedMountsLoop rest (mounts ++ [Mount.mk "bind" s t]) =
        Except.ok (mounts ++ List.filterMap shareOf ((k, v) :: rest))
      rw [ih (mounts ++ [Mount.mk "bind" s t])
        (fun q hq hqp => h q (List.mem_cons_of_mem _ hq) hqp)]
      simp [List.filterMap_cons, shareOf, hk, hst, List.append_assoc]
    · rw [if_neg hk]
      rw [ih mounts (fun q hq hqp => h q (List.mem_cons_of_mem _ hq) hqp)]
      have hkf : goStartsWith k "share." = false := by
        rwa [Bool.not_eq_true] at hk
      simp [List.filterMap_cons, shareOf, hkf]

theorem imageDefinedMountsLoop_err (L : List (String × String)) :
    ∀ mounts : List Mount,
      (∃ p ∈ L, goStartsWith p.1 "share." = true ∧ (goSplit p.2 ':').length ≠ 2) →
      ∃ w, imageDefinedMountsLoop L mounts = Except.error (SailErr.invalidShare w) ∧
        ∃ k2, (k2, w) ∈ L ∧ goStartsWith k2 "share." = true ∧
          (goSplit w ':').length ≠ 2 := by
  induction L with
  | nil =>
    intro mounts hex
    obtain ⟨p, hp, _⟩ := hex
    cases hp
  | cons p rest ih =>
    intro mounts hex
    obtain ⟨k, v⟩ := p
    simp only [imageDefinedMountsLoop]
    by_cases hk : goStartsWith k "share." = true
    · rw [if_pos hk]
      by_cases hv : (goSplit v ':').length = 2
      · obtain ⟨s, t, hst⟩ := List.length_eq_two.mp hv
        rw [hst]
        obtain ⟨q, hq, hqp, hqb⟩ := hex
        have hqr : q ∈ rest := by
          rcases List.mem_cons.mp hq with rfl | h2
          · exact absurd hv hqb
          · exact h2
        obtain ⟨w, hw, k2, hk2m, hk2p, hk2b⟩ :=
          ih (mounts ++ [Mount.mk "bind" s t]) ⟨q, hqr, hqp, hqb⟩
        exact ⟨w, hw, k2, List.mem_cons_of_mem _ hk2m, hk2p, hk2b⟩
      · refine ⟨v, ?_, k, List.mem_cons_self _ _, hk, hv⟩
        rcases hgs : goSplit v ':' with _ | ⟨s, tl⟩
        · simp [hgs]
        · rcases tl with _ | ⟨t, tl2⟩
          · simp [hgs]
          · rcases tl2 with _ | ⟨u, tl3⟩
            · exact absurd (by rw [hgs]; rfl) hv
            · simp [hgs]
    · rw [if_neg hk]
      obtain ⟨q, hq, hqp, hqb⟩ := hex
      have hqr : q ∈ rest := by
        rcases List.mem_cons.mp hq with rfl | h2
        · exact absurd hqp hk
        · exact h2
      obtain ⟨w, hw, k2, hk2m, hk2p, hk2b⟩ := ih mounts ⟨q, hqr, hqp, hqb⟩
      exact ⟨w, hw, k2, List.mem_cons_of_mem _ hk2m, hk2p, hk2b⟩

theorem mounts_ok_eq (r : runner) (env : RunEnv) (mounts0 : List Mount)
    (image : String) (i : Image) (pd binPath : String)
    (himg : env.img = some i) (hmk : env.mkdirOk = true)
    (hbin : env.codeServerBinPath = some binPath)
    (hpd : r.projectDir (some i) = Except.ok pd)
    (hsh : ∀ p ∈ i.containerConfigLabels, goStartsWith p.1 "share." = true →
      (goSplit p.2 ':').length = 2) :
    r.mounts env mounts0 image = Except.ok (resolveMounts env.hostHomeDir env.cwd
      (mounts0 ++ [configMount, extensionsMount, globalStorageMount r.cntName,
        projectMount r.projectLocalDir pd, codeServerMount binPath]
        ++ i.containerConfigLabels.filterMap shareOf)) := by
  simp only [runner.mounts, himg, hmk, if_true, hpd, hbin, imageDefinedMounts]
  rw [imageDefinedMountsLoop_ok _ _ hsh]
  simp [List.append_assoc]

/-- Claim C1: refuted by the code as packaged — runner.mounts never invokes
stripDuplicateMounts, so when an image-declared share collides with the
built-in code-server binary mount on the target /usr/bin/code-server, the
list handed to the engine's create call keeps both mounts; the dead
stripDuplicateMounts, had it been applied, would have kept exactly the
built-in mount, as the specification states. -/
theorem C1_duplicate_target_reaches_engine :
    cRunner.mounts cEnv [] "img" = Except.ok cDupMounts ∧
    ¬ (cDupMounts.map Mount.target).Nodup ∧
    createdMounts (cRunner.runContainer cEnv "img").1 = [cDupMounts] ∧
    (cRunner.runContainer cEnv "img").2 = Except.ok () ∧
    stripDuplicateMounts cDupMounts = cDupMounts.take 5 := by
  refine ⟨by rfl, by decide, by rfl, by rfl, by rfl⟩

theorem mapLookup_cons_of_ne (k1 v1 : String) (rest : List (String × String))
    (k : String) (h : (k1 == k) = false) :
    mapLookup ((k1, v1) :: rest) k = mapLookup rest k := by
  simp [mapLookup, List.find?, h]

theorem mapLookup_cons_self (k1 v1 : String) (rest : List (String × String))
    (k : String) (h : (k1 == k) = true) :
    mapLookup ((k1, v1) :: rest) k = some v1 := by
  simp [mapLookup, List.find?, h]

theorem mapLookup_mapInsert_self (m : List (String × String)) (k v : String) :
    mapLookup (mapInsert m k v) k = some v := by
  induction m with
  | nil =>
    simp [mapInsert, mapLookup, List.find?]
  | cons p rest ih =>
    obtain ⟨k1, v1⟩ := p
    by_cases hk1 : (k1 == k) = true
    · have hany : (((k1, v1) :: rest).any (fun p => p.1 == k)) = true := by
        simp [List.any_cons, hk1]
      rw [mapInsert, if_pos hany, List.map_cons]
      rw [if_pos hk1]
      exact mapLookup_cons_self k v _ k (by simp)
    · have hk1f : (k1 == k) = false := by rwa [Bool.not_eq_true] at hk1
      rw [mapInsert, List.any_cons, hk1f, Bool.false_or]
      rw [mapInsert] at ih
      by_cases hany : (rest.any (fun p => p.1 == k)) = true
      · rw [if_pos hany] at ih
        rw [if_pos hany, List.map_cons, if_neg (by simp [hk1f])]
        rw [mapLookup_cons_of_ne k1 v1 _ k hk1f]
        exact ih
      · rw [if_neg hany] at ih
        rw [if_neg hany, List.cons_append]
        rw [mapLookup_cons_of_ne k1 v1 _ k hk1f]
        exact ih

theorem mapLookup_mapInsert_other (m : List (String × String)) (k v k2 : String)
    (hne : k ≠ k2) :
    mapLookup (mapInsert m k v) k2 = mapLookup m k2 := by
  have hkk2 : (k == k2) = false := by
    rw [beq_eq_false_iff_ne]
    exact hne
  induction m with
  | nil =>
    simp [mapInsert, mapLookup, List.find?, hkk2]
  | cons p rest ih =>
    obtain ⟨k1, v1⟩ := p
    rw [mapInsert] at ih
    rw [mapInsert, List.any_cons]
    by_cases hk1 : (k1 == k) = true
    · have hk1k : k1 = k := by
        exact eq_of_beq hk1
      rw [hk1, Bool.true_or, if_pos rfl, List.map_cons, if_pos hk1]
      have hk1k2 : (k1 == k2) = false := by
        rw [beq_eq_false_iff_ne, hk1k]
        exact hne
      rw [mapLookup_cons_of_ne k v _ k2 hkk2, mapLookup_cons_of_ne k1 v1 _ k2 hk1k2]
      by_cases hany : (rest.any (fun p => p.1 == k)) = true
      · rw [if_pos hany] at ih
        exact ih
      · -- the key occurs in the head, so the map leaves the tail unchanged
        have : List.map (fun p => if p.1 == k then (k, v) else p) rest = rest := by
          clear ih
          induction rest with
          | nil => rfl
          | cons q qrest ihq =>
            obtain ⟨kq, vq⟩ := q
            by_cases hq : (kq == k) = true
            · exact absurd (by simp [List.any_cons, hq]) hany
            · have hqf : (kq == k) = false := by rwa [Bool.not_eq_true] at hq
              have hany2 : ¬ (qrest.any (fun p => p.1 == k)) = true := by
                intro hx
                exact hany (by simp [List.any_cons, hx])
              rw [List.map_cons, if_neg (by simp [hqf]), ihq hany2]
        rw [this]
    · have hk1f : (k1 == k) = false := by rwa [Bool.not_eq_true] at hk1
      rw [hk1f, Bool.false_or]
      by_cases hany : (rest.any (fun p => p.1 == k)) = true
      · rw [if_pos hany] at ih
        rw [if_pos hany, List.map_cons, if_neg (by simp [hk1f])]
        by_cases hk1k2 : (k1 == k2) = true
        · rw [mapLookup_cons_self k1 v1 _ k2 hk1k2, mapLookup_cons_self k1 v1 _ k2 hk1k2]
        · have hk1k2f : (k1 == k2) = false := by rwa [Bool.not_eq_true] at hk1k2
          rw [mapLookup_cons_of_ne k1 v1 _ k2 hk1k2f,
            mapLookup_cons_of_ne k1 v1 _ k2 hk1k2f]
          exact ih
      · rw [if_neg hany] at ih
        rw [if_neg hany, List.cons_append]
        by_cases hk1k2 : (k1 == k2) = true
        · rw [mapLookup_cons_self k1 v1 _ k2 hk1k2, mapLookup_cons_self k1 v1 _ k2 hk1k2]
        · have hk1k2f : (k1 == k2) = false := by rwa [Bool.not_eq_true] at hk1k2
          rw [mapLookup_cons_of_ne k1 v1 _ k2 hk1k2f,
            mapLookup_cons_of_ne k1 v1 _ k2 hk1k2f]
          exact ih

theorem addLabelsLoop_lookup_other (L : List (String × String)) :
    ∀ (labels : List (String × String)) (k : String),
      (∀ p ∈ L, goStartsWith p.1 sailLabel = true → p.1 ≠ k) →
      mapLookup (addLabelsLoop L labels) k = mapLookup labels k := by
  induction L with
  | nil =>
    intro labels k _
    rfl
  | cons p rest ih =>
    intro labels k h
    obtain ⟨k1, v1⟩ := p
    rw [addLabelsLoop]
    by_cases hk1 : goStartsWith k1 sailLabel = true
    · rw [if_pos hk1, ih _ k (fun q hq hqp => h q (List.mem_cons_of_mem _ hq) hqp)]
      exact mapLookup_mapInsert_other labels k1 v1 k
        (h (k1, v1) (List.mem_cons_self _ _) hk1)
    · rw [if_neg hk1]
      exact ih _ k (fun q hq hqp => h q (List.mem_cons_of_mem _ hq) hqp)

theorem addLabelsLoop_lookup_mem (L : List (String × String)) :
    ∀ (labels : List (String × String)) (k v : String),
      (L.map Prod.fst).Nodup → (k, v) ∈ L → goStartsWith k sailLabel = true →
      mapLookup (addLabelsLoop L labels) k = some v := by
  induction L with
  | nil =>
    intro _ _ _ _ hmem _
    cases hmem
  | cons p rest ih =>
    intro labels k v hnd hmem hpre
    obtain ⟨k1, v1⟩ := p
    simp only [List.map_cons, List.nodup_cons] at hnd
    obtain ⟨hk1nin, hndr⟩ := hnd
    rw [addLabelsLoop]
    rcases List.mem_cons.mp hmem with heq | hmemr
    · injection heq with h1 h2
      subst h1
      subst h2
      rw [if_pos hpre]
      rw [addLabelsLoop_lookup_other rest _ k
        (fun q hq _ hqe => hk1nin (List.mem_map.mpr ⟨q, hq, hqe⟩))]
      exact mapLookup_mapInsert_self labels k v
    · by_cases hk1 : goStartsWith k1 sailLabel = true
      · rw [if_pos hk1]
        exact ih _ k v hndr hmemr hpre
      · rw [if_neg hk1]
        exact ih _ k v hndr hmemr hpre

theorem addLabelsLoop_lookup_isSome (L : List (String × String)) :
    ∀ (labels : List (String × String)) (k : String),
      (mapLookup labels k).isSome → (mapLookup (addLabelsLoop L labels) k).isSome := by
  induction L with
  | nil =>
    intro _ _ h
    exact h
  | cons p rest ih =>
    intro labels k h
    obtain ⟨k1, v1⟩ := p
    rw [addLabelsLoop]
    by_cases hk1 : goStartsWith k1 sailLabel = true
    · rw [if_pos hk1]
      refine ih _ k ?_
      by_cases he : k1 = k
      · subst he
        rw [mapLookup_mapInsert_self]
        rfl
      · rw [mapLookup_mapInsert_other _ _ _ _ he]
        exact h
    · rw [if_neg hk1]
      exact ih _ k h

theorem mapLookup_fixedLabels_sail (a b c : String) :
    mapLookup (fixedLabels a b c) sailLabel = some "" := by
  simp [fixedLabels, mapLookup, List.find?]

theorem mapLookup_fixedLabels_projectDir (a b c : String) :
    mapLookup (fixedLabels a b c) projectDirLabel = some a := by
  have h1 : (sailLabel == projectDirLabel) = false := by decide
  simp [fixedLabels, mapLookup, List.find?, h1]

theorem mapLookup_fixedLabels_projectLocalDir (a b c : String) :
    mapLookup (fixedLabels a b c) projectLocalDirLabel = some b := by
  have h1 : (sailLabel == projectLocalDirLabel) = false := by decide
  have h2 : (projectDirLabel == projectLocalDirLabel) = false := by decide
  simp [fixedLabels, mapLookup, List.find?, h1, h2]

theorem mapLookup_fixedLabels_projectName (a b c : String) :
    mapLookup (fixedLabels a b c) projectNameLabel = some c := by
  have h1 : (sailLabel == projectNameLabel) = false := by decide
  have h2 : (projectDirLabel == projectNameLabel) = false := by decide
  have h3 : (projectLocalDirLabel == projectNameLabel) = false := by decide
  simp [fixedLabels, mapLookup, List.find?, h1, h2, h3]

theorem mapLookup_fixedLabels_none (a b c k : String)
    (hk : goStartsWith k sailLabel = false) :
    mapLookup (fixedLabels a b c) k = none := by
  have h1 : (sailLabel == k) = false := by
    rw [beq_eq_false_iff_ne]
    intro he
    rw [← he] at hk
    exact absurd hk (by decide)
  have h2 : (projectDirLabel == k) = false := by
    rw [beq_eq_false_iff_ne]
    intro he
    rw [← he] at hk
    exact absurd hk (by decide)
  have h3 : (projectLocalDirLabel == k) = false := by
    rw [beq_eq_false_iff_ne]
    intro he
    rw [← he] at hk
    exact absurd hk (by decide)
  have h4 : (projectNameLabel == k) = false := by
    rw [beq_eq_false_iff_ne]
    intro he
    rw [← he] at hk
    exact absurd hk (by decide)
  simp [fixedLabels, mapLookup, List.find?, h1, h2, h3, h4]

theorem runContainer_head (r : runner) (env : RunEnv) (image : String)
    (i : Image) (pd binPath : String)
    (himg : env.img = some i) (hmk : env.mkdirOk = true)
    (hbin : env.codeServerBinPath = some binPath)
    (hpd : r.projectDir (some i) = Except.ok pd)
    (hsh : ∀ p ∈ i.containerConfigLabels, goStartsWith p.1 "share." = true →
      (goSplit p.2 ':').length = 2) :
    (r.runContainer env image).1.head? = some (EngineCall.create
      (assembledConfig r image i pd)
      { mounts := assembledMounts r env i pd binPath, privileged := true }
      r.network r.ip r.cntName) := by
  have hm := mounts_ok_eq r env [] image i pd binPath himg hmk hbin hpd hsh
  simp only [runner.runContainer, hm, himg, hpd, addImageDefinedLabels]
  cases env.createErr with
  | some msg => simp [assembledConfig, assembledMounts, List.nil_append]
  | none =>
    cases env.startErr with
    | some msg => simp [assembledConfig, assembledMounts, List.nil_append]
    | none => simp [assembledConfig, assembledMounts, List.nil_append]

theorem runContainer_start_fail (r : runner) (env : RunEnv) (image : String)
    (i : Image) (pd binPath msg : String)
    (himg : env.img = some i) (hmk : env.mkdirOk = true)
    (hbin : env.codeServerBinPath = some binPath)
    (hpd : r.projectDir (some i) = Except.ok pd)
    (hsh : ∀ p ∈ i.containerConfigLabels, goStartsWith p.1 "share." = true →
      (goSplit p.2 ':').length = 2)
    (hce : env.createErr = none) (hse : env.startErr = some msg) :
    r.runContainer env image =
      ([EngineCall.create (assembledConfig r image i pd)
          { mounts := assembledMounts r env i pd binPath, privileged := true }
          r.network r.ip r.cntName, EngineCall.start r.cntName],
        Except.error (SailErr.startFailed msg)) := by
  have hm := mounts_ok_eq r env [] image i pd binPath himg hmk hbin hpd hsh
  simp only [runner.runContainer, hm, himg, hpd, addImageDefinedLabels, hce, hse]
  simp [assembledConfig, assembledMounts, List.nil_append]

/-- Claim C4: the computed guest project directory is the join of the
image's project_root label value with the project name when that label is
present, and the join of the fixed guest home directory with the project
name when it is absent. -/
theorem C4_projectDir_label (r : runner) (i : Image) :
    (∀ proot, mapLookup i.configLabels "project_root" = some proot →
      r.projectDir (some i) = Except.ok (filepathJoin proot r.projectName)) ∧
    (mapLookup i.configLabels "project_root" = none →
      r.projectDir (some i) = Except.ok (filepathJoin guestHomeDir r.projectName)) := by
  constructor
  · intro proot h
    simp [runner.projectDir, h]
  · intro h
    simp [runner.projectDir, h]

/-- Witness for claim C4 at a concrete image with project_root = /data and
at a concrete image without the label. -/
theorem C4_projectDir_label_witness :
    runner.projectDir
        (runner.mk "n" "proj" "h" "/home/u/proj" "1000" "net" "ip" "")
        (some (Image.mk [] [("project_root", "/data")])) =
      Except.ok (filepathJoin "/data" "proj") ∧
    runner.projectDir
        (runner.mk "n" "proj" "h" "/home/u/proj" "1000" "net" "ip" "")
        (some (Image.mk [] [])) =
      Except.ok (filepathJoin guestHomeDir "proj") :=
  ⟨(C4_projectDir_label (runner.mk "n" "proj" "h" "/home/u/proj" "1000" "net" "ip" "")
      (Image.mk [] [("project_root", "/data")])).1 "/data" (by decide),
    (C4_projectDir_label (runner.mk "n" "proj" "h" "/home/u/proj" "1000" "net" "ip" "")
      (Image.mk [] [])).2 (by decide)⟩

/-- Claim C3: recovery reproduces exactly the stored hostname, user, and the
project-name and local-dir labels, with the IP taken from the live lookup;
an inspection failure or an IP-lookup failure each yield a distinct error
naming the container, and no runner is produced in either case. -/
theorem C3_runnerFromContainer_exact (cnt : ContainerInfo)
    (name network P D ip : String) :
    (mapLookup cnt.labels projectNameLabel = some P →
      mapLookup cnt.labels projectLocalDirLabel = some D →
      runnerFromContainer (some cnt) (some ip) name network = Except.ok
        { cntName := name, projectName := P, hostname := cnt.hostname,
          projectLocalDir := D, hostUser := cnt.user, network := network,
          ip := ip, testCmd := "" }) ∧
    (∀ ipr : Option String,
      runnerFromContainer none ipr name network =
        Except.error (SailErr.inspectContainerFailed name)) ∧
    (runnerFromContainer (some cnt) none name network =
      Except.error (SailErr.ipLookupFailed name)) ∧
    (SailErr.inspectContainerFailed name ≠ SailErr.ipLookupFailed name) := by
  refine ⟨?_, ?_, ?_, ?_⟩
  · intro hP hD
    simp [runnerFromContainer, mapLookupD, hP, hD]
  · intro ipr
    rfl
  · rfl
  · intro h
    exact SailErr.noConfusion h

/-- Witness for claim C3 at a concrete stored container configuration. -/
theorem C3_runnerFromContainer_exact_witness :
    runnerFromContainer
        (some (ContainerInfo.mk "host1"
          [("sail.project_name", "P"), ("sail.project_local_dir", "/home/u/P")]
          "1000:user"))
        (some "172.18.0.2") "cnt" "sail" = Except.ok
      { cntName := "cnt", projectName := "P", hostname := "host1",
        projectLocalDir := "/home/u/P", hostUser := "1000:user",
        network := "sail", ip := "172.18.0.2", testCmd := "" } :=
  (C3_runnerFromContainer_exact
      (ContainerInfo.mk "host1"
        [("sail.project_name", "P"), ("sail.project_local_dir", "/home/u/P")]
        "1000:user")
      "cnt" "sail" "P" "/home/u/P" "172.18.0.2").1 (by decide) (by decide)

/-- Claim C2: a share-prefixed image label splits on the colon and must give
exactly two tokens; a well-formed value contributes a bind mount from the
first token to the second, and any other shape makes mount assembly fail
with an invalid-share error carrying a raw offending value. -/
theorem C2_share_label_parsing (i : Image) (image : String) (mounts : List Mount) :
    ((∀ p ∈ i.containerConfigLabels, goStartsWith p.1 "share." = true →
        (goSplit p.2 ':').length = 2) →
      imageDefinedMounts (some i) image mounts =
        Except.ok (mounts ++ i.containerConfigLabels.filterMap shareOf)) ∧
    (∀ k v s t, goStartsWith k "share." = true → goSplit v ':' = [s, t] →
      shareOf (k, v) = some (Mount.mk "bind" s t)) ∧
    (∀ p ∈ i.containerConfigLabels, goStartsWith p.1 "share." = true →
      (goSplit p.2 ':').length ≠ 2 →
      ∃ w, imageDefinedMounts (some i) image mounts =
          Except.error (SailErr.invalidShare w) ∧
        ∃ k2, (k2, w) ∈ i.containerConfigLabels ∧
          goStartsWith k2 "share." = true ∧ (goSplit w ':').length ≠ 2) ∧
    (∀ (r : runner) (env : RunEnv) (mounts0 : List Mount) (binPath : String),
      env.img = some i → env.mkdirOk = true →
      env.codeServerBinPath = some binPath →
      (∃ p ∈ i.containerConfigLabels, goStartsWith p.1 "share." = true ∧
        (goSplit p.2 ':').length ≠ 2) →
      ∃ w, r.mounts env mounts0 image = Except.error (SailErr.invalidShare w)) := by
  refine ⟨?_, ?_, ?_, ?_⟩
  · intro h
    exact imageDefinedMountsLoop_ok _ mounts h
  · intro k v s t hk hst
    simp [shareOf, hk, hst]
  · intro p hp hpre hbad
    exact imageDefinedMountsLoop_err _ mounts ⟨p, hp, hpre, hbad⟩
  · intro r env mounts0 binPath himg hmk hbin hex
    have hpdex : ∃ pd, r.projectDir (some i) = Except.ok pd := by
      cases h : mapLookup i.configLabels "project_root" with
      | some proot =>
        exact ⟨filepathJoin proot r.projectName, by simp [runner.projectDir, h]⟩
      | none =>
        exact ⟨filepathJoin guestHomeDir r.projectName, by simp [runner.projectDir, h]⟩
    obtain ⟨pd, hpd⟩ := hpdex
    obtain ⟨w, hw, _⟩ := imageDefinedMountsLoop_err i.containerConfigLabels
      (((((mounts0 ++ [configMount]) ++ [extensionsMount]) ++
        [globalStorageMount r.cntName]) ++ [projectMount r.projectLocalDir pd]) ++
        [codeServerMount binPath]) hex
    refine ⟨w, ?_⟩
    simp only [runner.mounts, himg, hmk, if_true, hpd, hbin, imageDefinedMounts, hw]

/-- Witness for claim C2: a malformed two-colon share value is rejected with
an invalid-share error naming it, at a concrete image. -/
theorem C2_share_label_parsing_witness :
    ∃ w, imageDefinedMounts (some (Image.mk [("share.x", "a:b:c")] [])) "img" [] =
        Except.error (SailErr.invalidShare w) ∧
      ∃ k2, (k2, w) ∈ (Image.mk [("share.x", "a:b:c")] []).containerConfigLabels ∧
        goStartsWith k2 "share." = true ∧ (goSplit w ':').length ≠ 2 :=
  (C2_share_label_parsing (Image.mk [("share.x", "a:b:c")] []) "img" []).2.2.1
    ("share.x", "a:b:c") (by decide) (by decide) (by decide)

/-- Claim C5: the container entry command is the cd-then-code-server pipe to
the fixed log path when the test command is empty, and the test command
followed by exit 1 when it is non-empty, selected only by that emptiness. -/
theorem C5_entry_command (r : runner) (env : RunEnv) (image : String)
    (i : Image) (pd binPath : String)
    (himg : env.img = some i) (hmk : env.mkdirOk = true)
    (hbin : env.codeServerBinPath = some binPath)
    (hpd : r.projectDir (some i) = Except.ok pd)
    (hsh : ∀ p ∈ i.containerConfigLabels, goStartsWith p.1 "share." = true →
      (goSplit p.2 ':').length = 2) :
    ∃ cfg host, (r.runContainer env image).1.head? =
        some (EngineCall.create cfg host r.network r.ip r.cntName) ∧
      (r.testCmd = "" → cfg.cmd = ["bash", "-c",
        "cd " ++ pd ++ "; code-server --data-dir ~/.config/Code --extensions-dir ~/.vscode/extensions --allow-http --no-auth 2>&1 | tee " ++
          containerLogPath]) ∧
      (r.testCmd ≠ "" → cfg.cmd = ["bash", "-c", r.testCmd ++ "; exit 1"]) := by
  refine ⟨assembledConfig r image i pd,
    { mounts := assembledMounts r env i pd binPath, privileged := true },
    runContainer_head r env image i pd binPath himg hmk hbin hpd hsh, ?_, ?_⟩
  · intro ht
    simp [assembledConfig, entryCmd, ht]
  · intro ht
    have hb : (r.testCmd != "") = true := by
      rw [bne_iff_ne]
      exact ht
    simp [assembledConfig, entryCmd, hb]

/-- Witness for claim C5 in test mode at concrete inputs. -/
theorem C5_entry_command_witness :
    ∃ cfg host,
      ((runner.mk "n" "p" "h" "/l" "1000" "net" "ip" "make test").runContainer
          (RunEnv.mk (some (Image.mk [] [])) true (some "/bin/cs") "/hh" "/cw"
            none none) "img").1.head? =
        some (EngineCall.create cfg host "net" "ip" "n") ∧
      ((runner.mk "n" "p" "h" "/l" "1000" "net" "ip" "make test").testCmd = "" →
        cfg.cmd = ["bash", "-c",
          "cd " ++ "/home/user/p" ++
            "; code-server --data-dir ~/.config/Code --extensions-dir ~/.vscode/extensions --allow-http --no-auth 2>&1 | tee " ++
            containerLogPath]) ∧
      ((runner.mk "n" "p" "h" "/l" "1000" "net" "ip" "make test").testCmd ≠ "" →
        cfg.cmd = ["bash", "-c",
          (runner.mk "n" "p" "h" "/l" "1000" "net" "ip" "make test").testCmd ++
            "; exit 1"]) :=
  C5_entry_command (runner.mk "n" "p" "h" "/l" "1000" "net" "ip" "make test")
    (RunEnv.mk (some (Image.mk [] [])) true (some "/bin/cs") "/hh" "/cw" none none)
    "img" (Image.mk [] []) "/home/user/p" "/bin/cs"
    rfl rfl rfl (by rfl) (by decide)

/-- Claim C9: runner.mounts appends, in this order, the editor configuration
mount, the extensions mount, the per-container global-storage mount, the
project mount and the code-server binary mount, then the image-declared
shares, and only then resolves every source and target, handing the fully
resolved list to the engine's create call. -/
theorem C9_mount_order_then_resolve (r : runner) (env : RunEnv)
    (mounts0 : List Mount) (image : String) (i : Image) (pd binPath : String)
    (himg : env.img = some i) (hmk : env.mkdirOk = true)
    (hbin : env.codeServerBinPath = some binPath)
    (hpd : r.projectDir (some i) = Except.ok pd)
    (hsh : ∀ p ∈ i.containerConfigLabels, goStartsWith p.1 "share." = true →
      (goSplit p.2 ':').length = 2) :
    r.mounts env mounts0 image = Except.ok (resolveMounts env.hostHomeDir env.cwd
      (mounts0 ++ [configMount, extensionsMount, globalStorageMount r.cntName,
        projectMount r.projectLocalDir pd, codeServerMount binPath]
        ++ i.containerConfigLabels.filterMap shareOf)) ∧
    ∃ cfg, (r.runContainer env image).1.head? = some (EngineCall.create cfg
      { mounts := assembledMounts r env i pd binPath, privileged := true }
      r.network r.ip r.cntName) :=
  ⟨mounts_ok_eq r env mounts0 image i pd binPath himg hmk hbin hpd hsh,
    assembledConfig r image i pd,
    runContainer_head r env image i pd binPath himg hmk hbin hpd hsh⟩

/-- Witness for claim C9 at a concrete image with one share declaration. -/
theorem C9_mount_order_then_resolve_witness :
    (runner.mk "n2" "p2" "h2" "/l2" "1000" "net2" "ip2" "").mounts
        (RunEnv.mk (some (Image.mk [("share.a", "/hs:/gs")] [])) true
          (some "/bin/cs2") "/hh2" "/cw2" none none) [] "img2" =
      Except.ok (resolveMounts "/hh2" "/cw2"
        ([] ++ [configMount, extensionsMount, globalStorageMount "n2",
          projectMount "/l2" "/home/user/p2", codeServerMount "/bin/cs2"]
          ++ (Image.mk [("share.a", "/hs:/gs")] []).containerConfigLabels.filterMap
            shareOf)) ∧
    ∃ cfg, (((runner.mk "n2" "p2" "h2" "/l2" "1000" "net2" "ip2" "").runContainer
        (RunEnv.mk (some (Image.mk [("share.a", "/hs:/gs")] [])) true
          (some "/bin/cs2") "/hh2" "/cw2" none none) "img2").1.head? =
      some (EngineCall.create cfg
        { mounts := assembledMounts
            (runner.mk "n2" "p2" "h2" "/l2" "1000" "net2" "ip2" "")
            (RunEnv.mk (some (Image.mk [("share.a", "/hs:/gs")] [])) true
              (some "/bin/cs2") "/hh2" "/cw2" none none)
            (Image.mk [("share.a", "/hs:/gs")] []) "/home/user/p2" "/bin/cs2",
          privileged := true }
        "net2" "ip2" "n2")) :=
  C9_mount_order_then_resolve
    (runner.mk "n2" "p2" "h2" "/l2" "1000" "net2" "ip2" "")
    (RunEnv.mk (some (Image.mk [("share.a", "/hs:/gs")] [])) true
      (some "/bin/cs2") "/hh2" "/cw2" none none)
    [] "img2" (Image.mk [("share.a", "/hs:/gs")] []) "/home/user/p2" "/bin/cs2"
    rfl rfl rfl (by rfl) (by decide)

/-- Claim C6: the label set of the create call carries entries for the four
fixed control labels — each holding its fixed value whenever the image does
not redefine that key (image-defined reserved labels overwrite, see the
claim about overriding) — together with every image label in the reserved
namespace copied verbatim, and nothing else: a key outside the reserved
namespace is never present. -/
theorem C6_container_labels (r : runner) (env : RunEnv) (image : String)
    (i : Image) (pd binPath : String)
    (himg : env.img = some i) (hmk : env.mkdirOk = true)
    (hbin : env.codeServerBinPath = some binPath)
    (hpd : r.projectDir (some i) = Except.ok pd)
    (hsh : ∀ p ∈ i.containerConfigLabels, goStartsWith p.1 "share." = true →
      (goSplit p.2 ':').length = 2)
    (hnd : (i.containerConfigLabels.map Prod.fst).Nodup) :
    ∃ cfg host, (r.runContainer env image).1.head? =
        some (EngineCall.create cfg host r.network r.ip r.cntName) ∧
      (mapLookup cfg.labels sailLabel).isSome = true ∧
      (mapLookup cfg.labels projectDirLabel).isSome = true ∧
      (mapLookup cfg.labels projectLocalDirLabel).isSome = true ∧
      (mapLookup cfg.labels projectNameLabel).isSome = true ∧
      (∀ k v, (k, v) ∈ i.containerConfigLabels → goStartsWith k sailLabel = true →
        mapLookup cfg.labels k = some v) ∧
      (∀ k, goStartsWith k sailLabel = false → mapLookup cfg.labels k = none) ∧
      (sailLabel ∉ i.containerConfigLabels.map Prod.fst →
        mapLookup cfg.labels sailLabel = some "") ∧
      (projectDirLabel ∉ i.containerConfigLabels.map Prod.fst →
        mapLookup cfg.labels projectDirLabel = some pd) ∧
      (projectLocalDirLabel ∉ i.containerConfigLabels.map Prod.fst →
        mapLookup cfg.labels projectLocalDirLabel = some r.projectLocalDir) ∧
      (projectNameLabel ∉ i.containerConfigLabels.map Prod.fst →
        mapLookup cfg.labels projectNameLabel = some r.projectName) := by
  refine ⟨assembledConfig r image i pd,
    { mounts := assembledMounts r env i pd binPath, privileged := true },
    runContainer_head r env image i pd binPath himg hmk hbin hpd hsh,
    ?_, ?_, ?_, ?_, ?_, ?_, ?_, ?_, ?_, ?_⟩
  · exact addLabelsLoop_lookup_isSome _ _ sailLabel
      (by rw [mapLookup_fixedLabels_sail]; rfl)
  · exact addLabelsLoop_lookup_isSome _ _ projectDirLabel
      (by rw [mapLookup_fixedLabels_projectDir]; rfl)
  · exact addLabelsLoop_lookup_isSome _ _ projectLocalDirLabel
      (by rw [mapLookup_fixedLabels_projectLocalDir]; rfl)
  · exact addLabelsLoop_lookup_isSome _ _ projectNameLabel
      (by rw [mapLookup_fixedLabels_projectName]; rfl)
  · intro k v hmem hpre
    exact addLabelsLoop_lookup_mem _ _ k v hnd hmem hpre
  · intro k hk
    have hother : ∀ p ∈ i.containerConfigLabels,
        goStartsWith p.1 sailLabel = true → p.1 ≠ k := by
      intro q hq hqp hqe
      rw [hqe] at hqp
      rw [hqp] at hk
      exact Bool.noConfusion hk
    show mapLookup (addLabelsLoop i.containerConfigLabels
      (fixedLabels pd r.projectLocalDir r.projectName)) k = none
    rw [addLabelsLoop_lookup_other _ _ k hother]
    exact mapLookup_fixedLabels_none pd r.projectLocalDir r.projectName k hk
  · intro hnin
    show mapLookup (addLabelsLoop i.containerConfigLabels
      (fixedLabels pd r.projectLocalDir r.projectName)) sailLabel = some ""
    rw [addLabelsLoop_lookup_other _ _ sailLabel
      (fun q hq _ hqe => hnin (List.mem_map.mpr ⟨q, hq, hqe⟩))]
    exact mapLookup_fixedLabels_sail pd r.projectLocalDir r.projectName
  · intro hnin
    show mapLookup (addLabelsLoop i.containerConfigLabels
      (fixedLabels pd r.projectLocalDir r.projectName)) projectDirLabel = some pd
    rw [addLabelsLoop_lookup_other _ _ projectDirLabel
      (fun q hq _ hqe => hnin (List.mem_map.mpr ⟨q, hq, hqe⟩))]
    exact mapLookup_fixedLabels_projectDir pd r.projectLocalDir r.projectName
  · intro hnin
    show mapLookup (addLabelsLoop i.containerConfigLabels
      (fixedLabels pd r.projectLocalDir r.projectName)) projectLocalDirLabel =
        some r.projectLocalDir
    rw [addLabelsLoop_lookup_other _ _ projectLocalDirLabel
      (fun q hq _ hqe => hnin (List.mem_map.mpr ⟨q, hq, hqe⟩))]
    exact mapLookup_fixedLabels_projectLocalDir pd r.projectLocalDir r.projectName
  · intro hnin
    show mapLookup (addLabelsLoop i.containerConfigLabels
      (fixedLabels pd r.projectLocalDir r.projectName)) projectNameLabel =
        some r.projectName
    rw [addLabelsLoop_lookup_other _ _ projectNameLabel
      (fun q hq _ hqe => hnin (List.mem_map.mpr ⟨q, hq, hqe⟩))]
    exact mapLookup_fixedLabels_projectName pd r.projectLocalDir r.projectName

/-- Witness for claim C6 at a concrete image carrying one reserved label and
one unreserved label. -/
theorem C6_container_labels_witness :
    ∃ cfg host,
      ((runner.mk "n3" "p3" "h3" "/l3" "1000" "net3" "ip3" "").runContainer
          (RunEnv.mk (some (Image.mk [("sail.hat", "v"), ("other", "w")] []))
            true (some "/bin/cs3") "/hh3" "/cw3" none none) "img3").1.head? =
        some (EngineCall.create cfg host "net3" "ip3" "n3") ∧
      (mapLookup cfg.labels sailLabel).isSome = true ∧
      (mapLookup cfg.labels projectDirLabel).isSome = true ∧
      (mapLookup cfg.labels projectLocalDirLabel).isSome = true ∧
      (mapLookup cfg.labels projectNameLabel).isSome = true ∧
      (∀ k v, (k, v) ∈ (Image.mk [("sail.hat", "v"), ("other", "w")]
          ([] : List (String × String))).containerConfigLabels →
        goStartsWith k sailLabel = true → mapLookup cfg.labels k = some v) ∧
      (∀ k, goStartsWith k sailLabel = false → mapLookup cfg.labels k = none) ∧
      (sailLabel ∉ (Image.mk [("sail.hat", "v"), ("other", "w")]
          ([] : List (String × String))).containerConfigLabels.map Prod.fst →
        mapLookup cfg.labels sailLabel = some "") ∧
      (projectDirLabel ∉ (Image.mk [("sail.hat", "v"), ("other", "w")]
          ([] : List (String × String))).containerConfigLabels.map Prod.fst →
        mapLookup cfg.labels projectDirLabel = some "/home/user/p3") ∧
      (projectLocalDirLabel ∉ (Image.mk [("sail.hat", "v"), ("other", "w")]
          ([] : List (String × String))).containerConfigLabels.map Prod.fst →
        mapLookup cfg.labels projectLocalDirLabel = some "/l3") ∧
      (projectNameLabel ∉ (Image.mk [("sail.hat", "v"), ("other", "w")]
          ([] : List (String × String))).containerConfigLabels.map Prod.fst →
        mapLookup cfg.labels projectNameLabel = some "p3") :=
  C6_container_labels (runner.mk "n3" "p3" "h3" "/l3" "1000" "net3" "ip3" "")
    (RunEnv.mk (some (Image.mk [("sail.hat", "v"), ("other", "w")] [])) true
      (some "/bin/cs3") "/hh3" "/cw3" none none)
    "img3" (Image.mk [("sail.hat", "v"), ("other", "w")] []) "/home/user/p3"
    "/bin/cs3" rfl rfl rfl (by rfl) (by decide) (by decide)

/-- Claim C7: when the engine's create succeeds and the subsequent start
fails, runContainer returns an error wrapping the start failure, and the
trace of engine calls is exactly create followed by start — in particular
the created container is never removed. -/
theorem C7_start_failure_no_rollback (r : runner) (env : RunEnv) (image : String)
    (i : Image) (pd binPath msg : String)
    (himg : env.img = some i) (hmk : env.mkdirOk = true)
    (hbin : env.codeServerBinPath = some binPath)
    (hpd : r.projectDir (some i) = Except.ok pd)
    (hsh : ∀ p ∈ i.containerConfigLabels, goStartsWith p.1 "share." = true →
      (goSplit p.2 ':').length = 2)
    (hce : env.createErr = none) (hse : env.startErr = some msg) :
    ∃ cfg host, r.runContainer env image =
        ([EngineCall.create cfg host r.network r.ip r.cntName,
          EngineCall.start r.cntName],
          Except.error (SailErr.startFailed msg)) ∧
      EngineCall.removeContainer r.cntName ∉ (r.runContainer env image).1 := by
  have heval := runContainer_start_fail r env image i pd binPath msg
    himg hmk hbin hpd hsh hce hse
  refine ⟨assembledConfig r image i pd,
    { mounts := assembledMounts r env i pd binPath, privileged := true },
    heval, ?_⟩
  rw [heval]
  intro hmem
  rcases List.mem_cons.mp hmem with h1 | h2
  · exact EngineCall.noConfusion h1
  · rcases List.mem_cons.mp h2 with h3 | h4
    · exact EngineCall.noConfusion h3
    · cases h4

/-- Witness for claim C7 at a concrete environment whose start call fails. -/
theorem C7_start_failure_no_rollback_witness :
    ∃ cfg host,
      (runner.mk "n4" "p4" "h4" "/l4" "1000" "net4" "ip4" "").runContainer
          (RunEnv.mk (some (Image.mk [] [])) true (some "/bin/cs4") "/hh4"
            "/cw4" none (some "boom")) "img4" =
        ([EngineCall.create cfg host "net4" "ip4" "n4", EngineCall.start "n4"],
          Except.error (SailErr.startFailed "boom")) ∧
      EngineCall.removeContainer "n4" ∉
        ((runner.mk "n4" "p4" "h4" "/l4" "1000" "net4" "ip4" "").runContainer
          (RunEnv.mk (some (Image.mk [] [])) true (some "/bin/cs4") "/hh4"
            "/cw4" none (some "boom")) "img4").1 :=
  C7_start_failure_no_rollback
    (runner.mk "n4" "p4" "h4" "/l4" "1000" "net4" "ip4" "")
    (RunEnv.mk (some (Image.mk [] [])) true (some "/bin/cs4") "/hh4" "/cw4"
      none (some "boom"))
    "img4" (Image.mk [] []) "/home/user/p4" "/bin/cs4" "boom"
    rfl rfl rfl (by rfl) (by decide) rfl rfl

/-- Claim C10: an image-defined reserved label whose key equals one of the
four fixed control labels silently overwrites the fixed value on the new
container, because image labels are written into the map after the fixed
labels are set. -/
theorem C10_image_label_overrides_fixed (r : runner) (env : RunEnv)
    (image : String) (i : Image) (pd binPath k v : String)
    (himg : env.img = some i) (hmk : env.mkdirOk = true)
    (hbin : env.codeServerBinPath = some binPath)
    (hpd : r.projectDir (some i) = Except.ok pd)
    (hsh : ∀ p ∈ i.containerConfigLabels, goStartsWith p.1 "share." = true →
      (goSplit p.2 ':').length = 2)
    (hnd : (i.containerConfigLabels.map Prod.fst).Nodup)
    (hmem : (k, v) ∈ i.containerConfigLabels)
    (hfix : k = sailLabel ∨ k = projectDirLabel ∨ k = projectLocalDirLabel ∨
      k = projectNameLabel) :
    ∃ cfg host, (r.runContainer env image).1.head? =
        some (EngineCall.create cfg host r.network r.ip r.cntName) ∧
      mapLookup cfg.labels k = some v := by
  have hpre : goStartsWith k sailLabel = true := by
    rcases hfix with rfl | rfl | rfl | rfl
    · decide
    · decide
    · decide
    · decide
  refine ⟨assembledConfig r image i pd,
    { mounts := assembledMounts r env i pd binPath, privileged := true },
    runContainer_head r env image i pd binPath himg hmk hbin hpd hsh, ?_⟩
  show mapLookup (addLabelsLoop i.containerConfigLabels
    (fixedLabels pd r.projectLocalDir r.projectName)) k = some v
  exact addLabelsLoop_lookup_mem _ _ k v hnd hmem hpre

/-- Witness for claim C10: an image redefining the project-directory label
to /evil makes the created container carry /evil under that key, not the
computed project directory. -/
theorem C10_image_label_overrides_fixed_witness :
    ∃ cfg host,
      ((runner.mk "n5" "p5" "h5" "/l5" "1000" "net5" "ip5" "").runContainer
          (RunEnv.mk (some (Image.mk [("sail.project_dir", "/evil")] [])) true
            (some "/bin/cs5") "/hh5" "/cw5" none none) "img5").1.head? =
        some (EngineCall.create cfg host "net5" "ip5" "n5") ∧
      mapLookup cfg.labels "sail.project_dir" = some "/evil" :=
  C10_image_label_overrides_fixed
    (runner.mk "n5" "p5" "h5" "/l5" "1000" "net5" "ip5" "")
    (RunEnv.mk (some (Image.mk [("sail.project_dir", "/evil")] [])) true
      (some "/bin/cs5") "/hh5" "/cw5" none none)
    "img5" (Image.mk [("sail.project_dir", "/evil")] []) "/home/user/p5"
    "/bin/cs5" "sail.project_dir" "/evil"
    rfl rfl rfl (by rfl) (by decide) (by decide) (by decide)
    (Or.inr (Or.inl (by decide)))

end Sail
